import Mathlib

/-!
Shallow embedding of the BlockchainChat replication server
(server source: the TypeScript module embedded in `src/server/README-build.md`,
types from `src/shared/types.ts`).

The SHA-256 digest of `JSON.stringify` is modelled by an abstract parameter
`H : BlockFields → String`, where `BlockFields` is the record the source
feeds to the digest (`{ ...block, hash: undefined }`, i.e. every block field
except `hash`; `JSON.stringify` drops the `undefined` entry).  JavaScript
`Date.now()` and `crypto.randomUUID()` are passed in as explicit `now`/`uuid`
arguments.  JavaScript values that may be `undefined` are `Option String`,
and JS truthiness on strings (`!s`, `s || d`) is modelled explicitly.
-/

namespace BlockchainChat

/-- `ChatMessage` from shared/types.ts.  `content` is `Option String` because
the cmd path stores `cmd.content`, which may be `undefined` at runtime. -/
structure ChatMessage where
  id : String
  author : String
  content : Option String
  timestamp : Nat
  type : String
  deriving DecidableEq

/-- `NoteDocument` from shared/types.ts. -/
structure NoteDocument where
  id : String
  title : String
  body : String
  updatedAt : Nat
  deriving DecidableEq

/-- `BlockPayload` from shared/types.ts: tagged union on `kind`; the server
only ever constructs the two well-formed variants. -/
inductive BlockPayload where
  | chat (message : ChatMessage)
  | note (note : NoteDocument)
  deriving DecidableEq

/-- `NetworkBlock<BlockPayload>` from shared/types.ts (the optional
`signature` field is never set by this server and is omitted). -/
structure Block where
  index : Nat
  prevHash : String
  timestamp : Nat
  data : BlockPayload
  hash : String
  deriving DecidableEq

/-- The fields fed to the digest: `{ ...block, hash: undefined }`. -/
structure BlockFields where
  index : Nat
  prevHash : String
  timestamp : Nat
  data : BlockPayload
  deriving DecidableEq

def fieldsOf (b : Block) : BlockFields :=
  ⟨b.index, b.prevHash, b.timestamp, b.data⟩

def defaultBlock : Block :=
  ⟨0, "", 0, .note ⟨"", "", "", 0⟩, ""⟩

/-- `chain[chain.length - 1]` (the server keeps the chain non-empty). -/
def headBlock (c : List Block) : Block := c.getLastD defaultBlock

/-- `chain[0].hash` (the server keeps the chain non-empty). -/
def firstHash (c : List Block) : String := (c.headD defaultBlock).hash

/-- JS falsiness of a possibly-undefined string: `!s` is true for
`undefined` and for `""`. -/
def isFalsyStr : Option String → Bool
  | none => true
  | some s => s = ""

/-- JS `v || d` for a possibly-undefined string. -/
def jsOr (v : Option String) (d : String) : String :=
  match v with
  | none => d
  | some s => if s = "" then d else s

/-- JS `Map.set`: update in place if the key is present (keeping insertion
order), otherwise append. -/
def mapSet {α β : Type} [DecidableEq α] (k : α) (v : β) :
    List (α × β) → List (α × β)
  | [] => [(k, v)]
  | p :: rest => if p.1 = k then (k, v) :: rest else p :: mapSet k v rest

def mapHasKey {α β : Type} [DecidableEq α] (k : α) (m : List (α × β)) : Bool :=
  m.any (fun p => p.1 = k)

def mapLookup {α β : Type} [DecidableEq α] (k : α) :
    List (α × β) → Option β
  | [] => none
  | p :: rest => if p.1 = k then some p.2 else mapLookup k rest

/-- `createGenesis()` acting on a chain value.  `tBlock` and `tNote` are the
two `Date.now()` calls; the genesis hash is the digest with `hash` blanked. -/
def createGenesis (H : BlockFields → String) (tBlock tNote : Nat)
    (chain : List Block) : List Block :=
  if chain.length = 0 then
    let data : BlockPayload := .note ⟨"genesis", "Welcome", "Genesis Block", tNote⟩
    chain ++ [{ index := 0, prevHash := "0", timestamp := tBlock, data := data,
                hash := H ⟨0, "0", tBlock, data⟩ }]
  else chain

/-- `buildBlock(data)`: link to the current head, digest with `hash` blanked. -/
def buildBlock (H : BlockFields → String) (now : Nat) (chain : List Block)
    (data : BlockPayload) : Block :=
  let prev := headBlock chain
  { index := prev.index + 1, prevHash := prev.hash, timestamp := now,
    data := data, hash := H ⟨prev.index + 1, prev.hash, now, data⟩ }

/-- `isValidNewBlock(block, prev)`: index successor, prevHash linkage,
recomputed digest equals the stored hash. -/
def isValidNewBlock (H : BlockFields → String) (block prev : Block) : Bool :=
  if block.index ≠ prev.index + 1 then false
  else if block.prevHash ≠ prev.hash then false
  else if H (fieldsOf block) ≠ block.hash then false
  else true

/-- The loop `for i=1;i<c.length;i++ if (!isValidNewBlock(c[i], c[i-1])) ...`:
every block from position 1 on is a valid successor of its predecessor. -/
def validSeq (H : BlockFields → String) : List Block → Bool
  | [] => true
  | [_] => true
  | a :: b :: rest => isValidNewBlock H b a && validSeq H (b :: rest)

/-- The fields the `cmd` branch reads from a client command envelope; each is
a possibly-undefined JS value. -/
structure CmdMsg where
  action : Option String
  author : Option String
  content : Option String
  title : Option String
  body : Option String
  deriving DecidableEq

/-- A parsed wire envelope, dispatched on its `type` tag; `other` stands for
an envelope whose tag is none of the recognized ones. -/
inductive WireMsg where
  | helloMsg (role : Option String) (url : Option String)
  | blockMsg (block : Block)
  | chainMsg (chain : List Block)
  | requestChain
  | peersMsg (peers : List String)
  | cmdMsg (cmd : CmdMsg)
  | other (tag : String)
  deriving DecidableEq

/-- A raw inbound frame: either valid JSON (already dispatched on its tag) or
a frame `JSON.parse` throws on. -/
inductive RawMsg where
  | parsed (m : WireMsg)
  | malformed
  deriving DecidableEq

/-- Observable side effect: a `ws.send` of one envelope to one socket.
Sockets are identified by `Nat` ids. -/
inductive Eff where
  | send (target : Nat) (msg : WireMsg)
  deriving DecidableEq

/-- The module-level mutable state of the server: `chain`, the `peers`
directory (url ↦ lastSeen, JS `Map` insertion order), the `clientSockets`
set and the `peerSockets` map (socket ↦ advertised url).  `nextSock` supplies
fresh ids for outbound `new WebSocket` connections. -/
structure ServerState where
  chain : List Block
  peers : List (String × Nat)
  clientSockets : List Nat
  peerSockets : List (Nat × String)
  nextSock : Nat
  deriving DecidableEq

/-- `Set.add`: no duplicate entries. -/
def addSock (ws : Nat) (l : List Nat) : List Nat :=
  if l.contains ws then l else l ++ [ws]

/-- `[...clientSockets, ...peerSockets.keys()]`, the sockets `broadcast`
iterates over (all registered sockets are modelled as OPEN). -/
def broadcastTargets (s : ServerState) : List Nat :=
  s.clientSockets ++ s.peerSockets.map (fun p => p.1)

/-- `broadcast(msg, filter)`. -/
def broadcast (s : ServerState) (m : WireMsg) (filter : Nat → Bool) : List Eff :=
  ((broadcastTargets s).filter filter).map (fun t => Eff.send t m)

/-- `broadcastState()`: send the whole chain to every live socket. -/
def broadcastState (s : ServerState) : List Eff :=
  broadcast s (.chainMsg s.chain) (fun _ => true)

/-- The url list `broadcastPeers` gossips: `[...peers.values()].map(p => p.url)`
(every record's `url` equals its key). -/
def peersList (s : ServerState) : List String :=
  s.peers.map (fun p => p.1)

/-- `broadcastPeers()`: gossip the peer-url list to peer sockets only. -/
def broadcastPeers (s : ServerState) : List Eff :=
  broadcast s (.peersMsg (peersList s)) (fun w => mapHasKey w s.peerSockets)

/-- `replaceChain(newChain)`: replace and `broadcastState()` only when the
candidate is strictly longer and shares the genesis hash. -/
def replaceChain (newChain : List Block) (s : ServerState) :
    ServerState × List Eff :=
  if newChain.length > s.chain.length ∧ firstHash newChain = firstHash s.chain then
    let s1 := { s with chain := newChain }
    (s1, broadcastState s1)
  else (s, [])

/-- The first `wss.on('connection')` message handler: hello / block / chain /
request_chain dispatch on an inbound socket `ws`. -/
def wssHandle (H : BlockFields → String) (now : Nat) (s : ServerState)
    (ws : Nat) (m : WireMsg) : ServerState × List Eff :=
  match m with
  | .helloMsg role url =>
    if role = some "client" then
      ({ s with clientSockets := addSock ws s.clientSockets },
       [.send ws (.chainMsg s.chain)])
    else if role = some "peer" then
      let u := url.getD ""
      let s1 := { s with peerSockets := mapSet ws u s.peerSockets,
                         peers := mapSet u now s.peers }
      (s1, [.send ws (.chainMsg s1.chain)] ++ broadcastPeers s1)
    else (s, [])
  | .blockMsg b =>
    let prev := headBlock s.chain
    if isValidNewBlock H b prev then
      let s1 := { s with chain := s.chain ++ [b] }
      (s1, broadcast s1 (.blockMsg b) (fun _ => true))
    else (s, [.send ws .requestChain])
  | .chainMsg incoming =>
    if incoming.length > s.chain.length ∧ firstHash incoming = firstHash s.chain then
      if validSeq H incoming then replaceChain incoming s else (s, [])
    else (s, [])
  | .requestChain => (s, [.send ws (.chainMsg s.chain)])
  | _ => (s, [])

/-- `handleClientCommand(cmd)`: the low-latency submission shortcut.  Note it
performs no field validation: `sendMessage` stores `cmd.content` as is, and
`addNote` substitutes `'Untitled'` / `''` defaults. -/
def handleClientCommand (H : BlockFields → String) (now : Nat) (uuid : String)
    (s : ServerState) (cmd : CmdMsg) : ServerState × List Eff :=
  if cmd.action = some "sendMessage" then
    let message : ChatMessage :=
      ⟨uuid, jsOr cmd.author "anon", cmd.content, now, "message"⟩
    let block := buildBlock H now s.chain (.chat message)
    let s1 := { s with chain := s.chain ++ [block] }
    (s1, broadcast s1 (.blockMsg block) (fun _ => true))
  else if cmd.action = some "addNote" then
    let note : NoteDocument := ⟨uuid, jsOr cmd.title "Untitled", (jsOr cmd.body ""), now⟩
    let block := buildBlock H now s.chain (.note note)
    let s1 := { s with chain := s.chain ++ [block] }
    (s1, broadcast s1 (.blockMsg block) (fun _ => true))
  else (s, [])

/-- The second `wss.on('connection')` message handler: only reacts to `cmd`. -/
def cmdHandle (H : BlockFields → String) (now : Nat) (uuid : String)
    (s : ServerState) (m : WireMsg) : ServerState × List Eff :=
  match m with
  | .cmdMsg c => handleClientCommand H now uuid s c
  | _ => (s, [])

/-- One inbound frame through both registered connection handlers, in
registration order; a parse failure is caught (and logged) in each. -/
def serverMsgHandler (H : BlockFields → String) (now : Nat) (uuid : String)
    (s : ServerState) (ws : Nat) (raw : RawMsg) : ServerState × List Eff :=
  match raw with
  | .malformed => (s, [])
  | .parsed m =>
    let r1 := wssHandle H now s ws m
    let r2 := cmdHandle H now uuid r1.1 m
    (r2.1, r1.2 ++ r2.2)

/-- Outcome of an HTTP submission endpoint. -/
inductive HttpResult where
  | badRequest (error : String)
  | okBlock (block : Block)
  deriving DecidableEq

/-- `app.post('/message')`: destructure with default `author = 'anon'` (a
destructuring default fires only on `undefined`), reject falsy `content`
before building any block, otherwise append and flood the block. -/
def postMessage (H : BlockFields → String) (now : Nat) (uuid : String)
    (s : ServerState) (author content : Option String) :
    ServerState × HttpResult × List Eff :=
  if isFalsyStr content then (s, .badRequest "content required", [])
  else
    let message : ChatMessage :=
      ⟨uuid, author.getD "anon", content, now, "message"⟩
    let block := buildBlock H now s.chain (.chat message)
    let s1 := { s with chain := s.chain ++ [block] }
    (s1, .okBlock block, broadcast s1 (.blockMsg block) (fun _ => true))

/-- `app.post('/note')`: reject falsy `title` or `body` before building any
block; `id || crypto.randomUUID()` supplies the note id. -/
def postNote (H : BlockFields → String) (now : Nat) (uuid : String)
    (s : ServerState) (id title body : Option String) :
    ServerState × HttpResult × List Eff :=
  if isFalsyStr title || isFalsyStr body then
    (s, .badRequest "title & body required", [])
  else
    let note : NoteDocument := ⟨jsOr id uuid, title.getD "", body.getD "", now⟩
    let block := buildBlock H now s.chain (.note note)
    let s1 := { s with chain := s.chain ++ [block] }
    (s1, .okBlock block, broadcast s1 (.blockMsg block) (fun _ => true))

/-- The synchronous part of `connectPeer(url)`: return unchanged when `url`
is the self-advertised address or a live peer connection to `url` exists;
otherwise open a fresh socket and record it in `peerSockets` (the `peers`
upsert happens later, in the asynchronous `open` handler).  The second
component is the id of the socket opened, if any. -/
def connectPeer (selfUrl : String) (s : ServerState) (url : String) :
    ServerState × Option Nat :=
  if url = selfUrl then (s, none)
  else if s.peerSockets.any (fun p => p.2 = url) then (s, none)
  else
    let sock := s.nextSock
    ({ s with peerSockets := mapSet sock url s.peerSockets,
              nextSock := s.nextSock + 1 }, some sock)

/-- The `peers` branch of the outbound message handler:
`list.forEach(u => { if (!peers.has(u)) connectPeer(u); })`. -/
def handlePeersList (selfUrl : String) (s : ServerState)
    (list : List String) : ServerState :=
  list.foldl
    (fun st u => if mapHasKey u st.peers then st else (connectPeer selfUrl st u).1) s

/-- The `open` handler of an outbound connection `pw` to `url`: send a peer
hello and a chain request, then upsert the peer record. -/
def onOpen (selfUrl : String) (now : Nat) (s : ServerState)
    (pw : Nat) (url : String) : ServerState × List Eff :=
  ({ s with peers := mapSet url now s.peers },
   [.send pw (.helloMsg (some "peer") (some selfUrl)), .send pw .requestChain])

/-- The message handler of an outbound connection `pw`: block / chain /
peers / request_chain; parse failures are caught and logged. -/
def outboundHandle (H : BlockFields → String) (selfUrl : String)
    (s : ServerState) (pw : Nat) (raw : RawMsg) : ServerState × List Eff :=
  match raw with
  | .malformed => (s, [])
  | .parsed m =>
    match m with
    | .blockMsg b =>
      let prev := headBlock s.chain
      if isValidNewBlock H b prev then
        let s1 := { s with chain := s.chain ++ [b] }
        (s1, broadcast s1 (.blockMsg b) (fun _ => true))
      else (s, [.send pw .requestChain])
    | .chainMsg incoming =>
      if incoming.length > s.chain.length ∧ firstHash incoming = firstHash s.chain then
        if validSeq H incoming then replaceChain incoming s else (s, [])
      else (s, [])
    | .peersMsg list => (handlePeersList selfUrl s list, [])
    | .requestChain => (s, [.send pw (.chainMsg s.chain)])
    | _ => (s, [])

/-- The `close` handler of an inbound socket: drop it from `clientSockets`;
drop it from `peerSockets` only when its mapped url is truthy
(`if (url) peerSockets.delete(ws)`). -/
def onClose (s : ServerState) (ws : Nat) : ServerState :=
  let s1 := { s with clientSockets := s.clientSockets.filter (fun w => w ≠ ws) }
  match mapLookup ws s.peerSockets with
  | some u =>
    if u = "" then s1
    else { s1 with peerSockets := s1.peerSockets.filter (fun p => p.1 ≠ ws) }
  | none => s1

/-- One gossip-timer tick: `broadcastPeers()` then retry `connectPeer` for
every directory url with no live connection. -/
def gossipTick (selfUrl : String) (s : ServerState) : ServerState × List Eff :=
  let effs := broadcastPeers s
  let s1 := (peersList s).foldl
    (fun st u =>
      if st.peerSockets.any (fun p => p.2 = u) then st
      else (connectPeer selfUrl st u).1) s
  (s1, effs)

/-- Every event that can mutate the server state, with its environment
(`Date.now()` / uuid draws) attached. -/
inductive ServerEvent where
  | inboundMsg (now : Nat) (uuid : String) (ws : Nat) (raw : RawMsg)
  | inboundClose (ws : Nat)
  | outboundMsg (pw : Nat) (raw : RawMsg)
  | outboundOpen (now : Nat) (pw : Nat) (url : String)
  | connectCall (url : String)
  | tick
  | httpMessage (now : Nat) (uuid : String) (author content : Option String)
  | httpNote (now : Nat) (uuid : String) (id title body : Option String)

/-- Apply one event to the server state (side effects dropped). -/
def applyEvent (H : BlockFields → String) (selfUrl : String)
    (s : ServerState) : ServerEvent → ServerState
  | .inboundMsg now uuid ws raw => (serverMsgHandler H now uuid s ws raw).1
  | .inboundClose ws => onClose s ws
  | .outboundMsg pw raw => (outboundHandle H selfUrl s pw raw).1
  | .outboundOpen now pw url => (onOpen selfUrl now s pw url).1
  | .connectCall url => (connectPeer selfUrl s url).1
  | .tick => (gossipTick selfUrl s).1
  | .httpMessage now uuid author content => (postMessage H now uuid s author content).1
  | .httpNote now uuid id title body => (postNote H now uuid s id title body).1

/-- Modelled from the spec: `replaceIfBetter`'s acceptance boolean — the
candidate is strictly longer, shares the genesis hash, and every block from
position 1 on is a valid successor of its predecessor. -/
def replaceIfBetterSpec (H : BlockFields → String)
    (cur cand : List Block) : Bool :=
  decide (cand.length > cur.length) && (firstHash cand == firstHash cur)
    && validSeq H cand

/-- A concrete executable digest used to instantiate the abstract `H` in
witnesses and counterexamples: the decimal rendering of the index field. -/
def hIdx : BlockFields → String := fun f => toString f.index

/-- Number of live peer connections to a given url. -/
def countConnsTo (s : ServerState) (url : String) : Nat :=
  (s.peerSockets.filter (fun p => p.2 = url)).length

/-- The state right after an inbound peer hello carrying `url?`. -/
def afterHello (H : BlockFields → String) (now : Nat) (uuid : String)
    (s : ServerState) (ws : Nat) (url? : Option String) : ServerState :=
  (serverMsgHandler H now uuid s ws (.parsed (.helloMsg (some "peer") url?))).1

/-- Concrete fixtures for witnesses and counterexamples. -/
def samplePayload : BlockPayload := .note ⟨"n", "t", "b", 0⟩

def sampleChain : List Block := createGenesis hIdx 0 0 []

/-- One registered peer socket (id 7, url "ws://a"); fresh ids start at 8. -/
def sampleState : ServerState := ⟨sampleChain, [("ws://a", 0)], [], [(7, "ws://a")], 8⟩

def sampleBlock : Block := buildBlock hIdx 5 sampleChain samplePayload

/-- A block whose `prevHash` does not match the head: invalid successor. -/
def sampleBad : Block := ⟨1, "wrong", 0, samplePayload, "1"⟩

/-- First block of a candidate chain sharing the genesis *hash* (under `hIdx`)
while its own recomputed digest differs from its stored hash. -/
def cxB0 : Block := ⟨1, "zz", 0, samplePayload, "0"⟩

/-- Valid successor of `cxB0` under `hIdx`. -/
def cxB1 : Block := ⟨2, "0", 0, samplePayload, "2"⟩

/-- A strictly longer candidate chain extending the sample genesis. -/
def sampleCand : List Block := sampleChain ++ [sampleBlock]

/-- C8: `createGenesis` on an empty chain yields exactly one block with
index 0 and prevHash "0"; on a non-empty chain it is the identity. -/
theorem createGenesis_behavior (H : BlockFields → String) (tB tN : Nat)
    (c : List Block) (hc : c ≠ []) :
    (createGenesis H tB tN []).length = 1
    ∧ (headBlock (createGenesis H tB tN [])).index = 0
    ∧ (headBlock (createGenesis H tB tN [])).prevHash = "0"
    ∧ createGenesis H tB tN c = c := by
  refine ⟨by simp [createGenesis], by simp [createGenesis, headBlock],
    by simp [createGenesis, headBlock], ?_⟩
  simp [createGenesis, List.length_eq_zero, hc]

theorem createGenesis_behavior_witness :
    ([sampleBlock] : List Block) ≠ []
    ∧ ((createGenesis hIdx 0 0 []).length = 1
      ∧ (headBlock (createGenesis hIdx 0 0 [])).index = 0
      ∧ (headBlock (createGenesis hIdx 0 0 [])).prevHash = "0"
      ∧ createGenesis hIdx 0 0 [sampleBlock] = [sampleBlock]) :=
  ⟨by decide, createGenesis_behavior hIdx 0 0 [sampleBlock] (by decide)⟩

/-- C9: a frame `JSON.parse` throws on, or a frame with an unrecognized
`type` tag, leaves the whole server state (chain, peer directory, socket
registries) unchanged and produces no outbound message; the handlers catch
the parse error and never close the connection (the model has no close
effect in either path). -/
theorem garbage_frames_inert (H : BlockFields → String) (now : Nat)
    (uuid : String) (s : ServerState) (ws : Nat) (tag : String) :
    serverMsgHandler H now uuid s ws .malformed = (s, [])
    ∧ serverMsgHandler H now uuid s ws (.parsed (.other tag)) = (s, []) :=
  ⟨rfl, rfl⟩

/-- C2: an inbound `block` frame whose block is not a valid successor of the
current head (wrong index, prevHash mismatch, or digest mismatch) leaves the
state untouched and sends exactly one `request_chain` reply to the sender. -/
theorem invalid_block_no_mutation (H : BlockFields → String) (now : Nat)
    (uuid : String) (s : ServerState) (ws : Nat) (b : Block)
    (h : isValidNewBlock H b (headBlock s.chain) = false) :
    serverMsgHandler H now uuid s ws (.parsed (.blockMsg b)) =
      (s, [.send ws .requestChain]) := by
  simp [serverMsgHandler, wssHandle, cmdHandle, h]

theorem invalid_block_no_mutation_witness :
    isValidNewBlock hIdx sampleBad (headBlock sampleState.chain) = false
    ∧ serverMsgHandler hIdx 5 "u" sampleState 7 (.parsed (.blockMsg sampleBad)) =
        (sampleState, [.send 7 .requestChain]) :=
  ⟨by decide, invalid_block_no_mutation hIdx 5 "u" sampleState 7 sampleBad (by decide)⟩

/-- C4: `replaceChain` never shortens the chain and never changes the genesis
hash; when it does replace, the new chain is the candidate, strictly longer,
with the same genesis hash. -/
theorem replaceChain_monotone (cand : List Block) (s : ServerState) :
    s.chain.length ≤ (replaceChain cand s).1.chain.length
    ∧ firstHash (replaceChain cand s).1.chain = firstHash s.chain
    ∧ ((replaceChain cand s).1.chain ≠ s.chain →
        (replaceChain cand s).1.chain = cand ∧ cand.length > s.chain.length
          ∧ firstHash cand = firstHash s.chain) := by
  unfold replaceChain
  split_ifs with h
  · exact ⟨le_of_lt h.1, h.2, fun _ => ⟨rfl, h.1, h.2⟩⟩
  · simp

theorem replaceChain_monotone_witness :
    (replaceChain sampleCand sampleState).1.chain = sampleCand
    ∧ sampleCand.length > sampleState.chain.length := by
  have h := (replaceChain_monotone sampleCand sampleState).2.2 (by decide)
  exact ⟨h.1, h.2.1⟩

/-- C1: the inbound `chain` branch together with `replaceChain` implements
the spec's `replaceIfBetter`: the offer is accepted exactly when the
candidate is strictly longer, shares the genesis hash, and every block from
position 1 on is a valid successor; on acceptance the chain is replaced
wholesale and the new chain is broadcast, otherwise nothing changes — so the
spec-level boolean `replaceIfBetterSpec` (whether replacement occurred) is
exactly observable in the handler's result. -/
theorem chain_offer_replaceIfBetter (H : BlockFields → String) (now : Nat)
    (uuid : String) (s : ServerState) (ws : Nat) (cand : List Block)
    (_hne : s.chain ≠ []) :
    (replaceIfBetterSpec H s.chain cand = true ↔
      (cand.length > s.chain.length ∧ firstHash cand = firstHash s.chain
        ∧ validSeq H cand = true))
    ∧ serverMsgHandler H now uuid s ws (.parsed (.chainMsg cand)) =
        (if replaceIfBetterSpec H s.chain cand = true
         then ({ s with chain := cand }, broadcastState { s with chain := cand })
         else (s, [])) := by
  have hiff : replaceIfBetterSpec H s.chain cand = true ↔
      (cand.length > s.chain.length ∧ firstHash cand = firstHash s.chain
        ∧ validSeq H cand = true) := by
    simp [replaceIfBetterSpec, Bool.and_eq_true, and_assoc]
  refine ⟨hiff, ?_⟩
  by_cases hA : cand.length > s.chain.length ∧ firstHash cand = firstHash s.chain
  · by_cases hC : validSeq H cand = true
    · rw [if_pos (hiff.mpr ⟨hA.1, hA.2, hC⟩)]
      simp [serverMsgHandler, wssHandle, cmdHandle, replaceChain, hA, hC]
    · rw [if_neg (fun hx => hC (hiff.mp hx).2.2)]
      simp [serverMsgHandler, wssHandle, cmdHandle, hA, hC]
  · rw [if_neg (fun hx => hA ⟨(hiff.mp hx).1, (hiff.mp hx).2.1⟩)]
    simp [serverMsgHandler, wssHandle, cmdHandle, hA]

theorem chain_offer_replaceIfBetter_witness :
    sampleState.chain ≠ []
    ∧ serverMsgHandler hIdx 5 "u" sampleState 9 (.parsed (.chainMsg sampleCand)) =
        (if replaceIfBetterSpec hIdx sampleState.chain sampleCand = true
         then ({ sampleState with chain := sampleCand },
               broadcastState { sampleState with chain := sampleCand })
         else (sampleState, [])) :=
  ⟨by decide,
   (chain_offer_replaceIfBetter hIdx 5 "u" sampleState 9 sampleCand (by decide)).2⟩

/-- C5 counterexample: a valid block arriving on socket 7 — the only live
connection — is broadcast back to socket 7 itself, while the claim ("every
live connection except the one the block arrived on") requires an empty
re-broadcast here. -/
theorem block_flood_includes_sender_cx :
    isValidNewBlock hIdx sampleBlock (headBlock sampleState.chain) = true
    ∧ mapHasKey 7 sampleState.peerSockets = true
    ∧ (serverMsgHandler hIdx 5 "u" sampleState 7
        (.parsed (.blockMsg sampleBlock))).2 = [.send 7 (.blockMsg sampleBlock)] := by
  decide

/-- C5 (amended): a valid inbound block is appended and re-broadcast to every
live connection — including the one it arrived on when that socket is
registered; the code passes no filter excluding the sender. -/
theorem valid_block_appends_and_floods (H : BlockFields → String) (now : Nat)
    (uuid : String) (s : ServerState) (ws : Nat) (b : Block)
    (h : isValidNewBlock H b (headBlock s.chain) = true) :
    serverMsgHandler H now uuid s ws (.parsed (.blockMsg b)) =
      ({ s with chain := s.chain ++ [b] },
       (broadcastTargets s).map (fun t => Eff.send t (.blockMsg b))) := by
  simp [serverMsgHandler, wssHandle, cmdHandle, h, broadcast, broadcastTargets]

theorem valid_block_appends_and_floods_witness :
    isValidNewBlock hIdx sampleBlock (headBlock sampleState.chain) = true
    ∧ serverMsgHandler hIdx 5 "u" sampleState 7 (.parsed (.blockMsg sampleBlock)) =
        ({ sampleState with chain := sampleState.chain ++ [sampleBlock] },
         (broadcastTargets sampleState).map
           (fun t => Eff.send t (.blockMsg sampleBlock))) :=
  ⟨by decide,
   valid_block_appends_and_floods hIdx 5 "u" sampleState 7 sampleBlock (by decide)⟩

/-- C6 counterexample: a `cmd` frame with action `sendMessage` and no
`content` field is NOT rejected — it reaches the ledger and appends a block,
while the claim requires the chain to be left unchanged on every submission
path. -/
theorem cmd_bypasses_validation_cx :
    (serverMsgHandler hIdx 5 "u" sampleState 7
        (.parsed (.cmdMsg ⟨some "sendMessage", none, none, none, none⟩))).1.chain
      ≠ sampleState.chain
    ∧ (serverMsgHandler hIdx 5 "u" sampleState 7
        (.parsed (.cmdMsg ⟨some "sendMessage", none, none, none, none⟩))).1.chain.length
      = 2 := by
  decide

/-- C6 (amended): the HTTP endpoints do validate — `/message` rejects falsy
content and `/note` rejects falsy title or body, each before any block is
built and without touching the state — but the `cmd` WebSocket shortcut does
not: a `sendMessage` command always appends a block, whatever its `content`
(and `addNote` substitutes `'Untitled'`/`''` defaults). -/
theorem submission_validation (H : BlockFields → String) (now : Nat)
    (uuid : String) (s : ServerState) (ws : Nat)
    (author content id title body : Option String) (c : CmdMsg)
    (h1 : isFalsyStr content = true)
    (h2 : (isFalsyStr title || isFalsyStr body) = true)
    (h3 : c.action = some "sendMessage") :
    postMessage H now uuid s author content = (s, .badRequest "content required", [])
    ∧ postNote H now uuid s id title body = (s, .badRequest "title & body required", [])
    ∧ (serverMsgHandler H now uuid s ws (.parsed (.cmdMsg c))).1.chain =
        s.chain ++ [buildBlock H now s.chain
          (.chat ⟨uuid, jsOr c.author "anon", c.content, now, "message"⟩)] := by
  refine ⟨by simp [postMessage, h1], by simp [postNote, h2], ?_⟩
  simp [serverMsgHandler, wssHandle, cmdHandle, handleClientCommand, h3]

theorem submission_validation_witness :
    isFalsyStr (none : Option String) = true
    ∧ (isFalsyStr (some "") || isFalsyStr (some "x")) = true
    ∧ CmdMsg.action ⟨some "sendMessage", none, none, none, none⟩ = some "sendMessage"
    ∧ (postMessage hIdx 5 "u" sampleState none none =
        (sampleState, .badRequest "content required", [])
      ∧ postNote hIdx 5 "u" sampleState none (some "") (some "x") =
          (sampleState, .badRequest "title & body required", [])
      ∧ (serverMsgHandler hIdx 5 "u" sampleState 7
          (.parsed (.cmdMsg ⟨some "sendMessage", none, none, none, none⟩))).1.chain =
          sampleState.chain ++ [buildBlock hIdx 5 sampleState.chain
            (.chat ⟨"u", "anon", none, 5, "message"⟩)]) :=
  ⟨by decide, by decide, by decide,
   submission_validation hIdx 5 "u" sampleState 7 none none none (some "") (some "x")
     ⟨some "sendMessage", none, none, none, none⟩ (by decide) (by decide) (by decide)⟩

theorem isValidNewBlock_hash {H : BlockFields → String} {b a : Block}
    (h : isValidNewBlock H b a = true) : b.hash = H (fieldsOf b) := by
  unfold isValidNewBlock at h
  split_ifs at h with h1 h2 h3
  exact (not_ne_iff.mp h3).symm

theorem validSeq_getD (H : BlockFields → String) :
    ∀ c : List Block, validSeq H c = true → ∀ i, i + 1 < c.length →
      isValidNewBlock H (c.getD (i+1) defaultBlock) (c.getD i defaultBlock) = true := by
  intro c
  induction c with
  | nil => intro _ i hi; simp at hi
  | cons a rest ih =>
    intro h i hi
    cases rest with
    | nil => simp at hi
    | cons b rest' =>
      have h2 : isValidNewBlock H b a = true ∧ validSeq H (b :: rest') = true := by
        simpa [validSeq, Bool.and_eq_true] using h
      cases i with
      | zero => simpa using h2.1
      | succ j =>
        have hj : j + 1 < (b :: rest').length := by
          simp only [List.length_cons] at hi ⊢; omega
        simpa using ih h2.2 j hj

/-- C3 (amended): every block built by `buildBlock` and the genesis built by
`createGenesis` store exactly the digest of their own fields (hash blanked);
and in a chain the inbound `chain` handler accepts, every block at position
`i ≥ 1` satisfies the invariant — position 0 is only required to share the
local genesis hash and need not satisfy it. -/
theorem hash_invariant_blocks (H : BlockFields → String) (tB tN now : Nat)
    (uuid : String) (chain : List Block) (data : BlockPayload) (s : ServerState)
    (ws : Nat) (cand : List Block)
    (hrep : (serverMsgHandler H now uuid s ws (.parsed (.chainMsg cand))).1.chain = cand)
    (hne : cand ≠ s.chain) :
    (buildBlock H now chain data).hash = H (fieldsOf (buildBlock H now chain data))
    ∧ (∀ g ∈ createGenesis H tB tN [], g.hash = H (fieldsOf g))
    ∧ ∀ i, i + 1 < cand.length →
        (cand.getD (i+1) defaultBlock).hash = H (fieldsOf (cand.getD (i+1) defaultBlock)) := by
  refine ⟨rfl, by simp [createGenesis, fieldsOf], ?_⟩
  have hC : validSeq H cand = true := by
    by_cases hA : cand.length > s.chain.length ∧ firstHash cand = firstHash s.chain
    · by_cases hC : validSeq H cand = true
      · exact hC
      · exfalso
        have hsame : (serverMsgHandler H now uuid s ws
            (.parsed (.chainMsg cand))).1.chain = s.chain := by
          simp [serverMsgHandler, wssHandle, cmdHandle, hA, hC]
        exact hne (hrep.symm.trans hsame)
    · exfalso
      have hsame : (serverMsgHandler H now uuid s ws
          (.parsed (.chainMsg cand))).1.chain = s.chain := by
        simp [serverMsgHandler, wssHandle, cmdHandle, hA]
      exact hne (hrep.symm.trans hsame)
  intro i hi
  exact isValidNewBlock_hash (validSeq_getD H cand hC i hi)

theorem hash_invariant_blocks_witness :
    (serverMsgHandler hIdx 5 "u" sampleState 9 (.parsed (.chainMsg sampleCand))).1.chain
        = sampleCand
    ∧ sampleCand ≠ sampleState.chain
    ∧ (sampleCand.getD 1 defaultBlock).hash
        = hIdx (fieldsOf (sampleCand.getD 1 defaultBlock)) :=
  ⟨by decide, by decide,
   (hash_invariant_blocks hIdx 0 0 5 "u" sampleChain samplePayload sampleState 9
      sampleCand (by decide) (by decide)).2.2 0 (by decide)⟩

/-- C3 counterexample: a candidate chain whose first block shares the local
genesis *hash* but not its recomputed digest is accepted wholesale by the
inbound `chain` handler — the claim's "every block of any chain accepted as
valid satisfies hash == Hasher(...)" fails at position 0. -/
theorem accepted_chain_bad_genesis_cx :
    (serverMsgHandler hIdx 5 "u" sampleState 9
        (.parsed (.chainMsg [cxB0, cxB1]))).1.chain = [cxB0, cxB1]
    ∧ ([cxB0, cxB1] : List Block) ≠ sampleState.chain
    ∧ cxB0 ∈ ([cxB0, cxB1] : List Block)
    ∧ cxB0.hash ≠ hIdx (fieldsOf cxB0) := by
  decide

theorem mapSet_append {α β : Type} [DecidableEq α] (k : α) (v : β) :
    ∀ m : List (α × β), mapHasKey k m = false → mapSet k v m = m ++ [(k, v)] := by
  intro m
  induction m with
  | nil => intro _; rfl
  | cons p rest ih =>
    intro h
    simp only [mapHasKey, List.any_cons, Bool.or_eq_false_iff,
      decide_eq_false_iff_not] at h
    simp only [mapSet, if_neg (fun hx => h.1 hx), List.cons_append]
    rw [ih (by simp [mapHasKey, h.2])]

theorem mapHasKey_lt_nextSock {β : Type} (n : Nat) :
    ∀ m : List (Nat × β), (∀ p ∈ m, p.1 < n) → mapHasKey n m = false := by
  intro m h
  simp only [mapHasKey, List.any_eq_false, decide_eq_true_eq]
  exact fun p hp => Nat.ne_of_lt (h p hp)

theorem connectPeer_peers (selfUrl : String) (s : ServerState) (url : String) :
    (connectPeer selfUrl s url).1.peers = s.peers := by
  unfold connectPeer
  split_ifs <;> rfl

theorem connectPeer_countSelf (selfUrl url : String) (s : ServerState)
    (hfresh : ∀ p ∈ s.peerSockets, p.1 < s.nextSock) :
    countConnsTo (connectPeer selfUrl s url).1 selfUrl = countConnsTo s selfUrl := by
  unfold connectPeer
  split_ifs with h1 h2
  · rfl
  · rfl
  · have hnk : mapHasKey s.nextSock s.peerSockets = false :=
      mapHasKey_lt_nextSock s.nextSock s.peerSockets hfresh
    simp [countConnsTo, mapSet_append _ _ _ hnk, List.filter_append, h1]

theorem connectPeer_fresh (selfUrl url : String) (s : ServerState)
    (hfresh : ∀ p ∈ s.peerSockets, p.1 < s.nextSock) :
    ∀ p ∈ (connectPeer selfUrl s url).1.peerSockets,
      p.1 < (connectPeer selfUrl s url).1.nextSock := by
  unfold connectPeer
  split_ifs with h1 h2
  · exact hfresh
  · exact hfresh
  · have hnk : mapHasKey s.nextSock s.peerSockets = false :=
      mapHasKey_lt_nextSock s.nextSock s.peerSockets hfresh
    simp only [mapSet_append _ _ _ hnk]
    intro p hp
    rcases List.mem_append.mp hp with hp | hp
    · exact Nat.lt_succ_of_lt (hfresh p hp)
    · simp only [List.mem_singleton] at hp
      subst hp
      exact Nat.lt_succ_self _

theorem handlePeersList_countSelf (selfUrl : String) :
    ∀ (list : List String) (s : ServerState),
      (∀ p ∈ s.peerSockets, p.1 < s.nextSock) →
      countConnsTo (handlePeersList selfUrl s list) selfUrl = countConnsTo s selfUrl := by
  intro list
  induction list with
  | nil => intro s _; rfl
  | cons u rest ih =>
    intro s h
    have hstep : handlePeersList selfUrl s (u :: rest) =
        handlePeersList selfUrl
          (if mapHasKey u s.peers then s else (connectPeer selfUrl s u).1) rest := by
      simp [handlePeersList]
    rw [hstep]
    by_cases hk : mapHasKey u s.peers = true
    · rw [if_pos hk]; exact ih s h
    · rw [if_neg (by simpa using hk)]
      rw [ih _ (connectPeer_fresh selfUrl u s h)]
      exact connectPeer_countSelf selfUrl u s h

/-- C7: `connectPeer` is a no-op on the self url and on a url with a live
peer connection; calling it twice in succession while one connection to the
url is live keeps the state (hence exactly one connection to that url); and
processing a gossiped peer list — even one containing the self url — never
creates a connection to the self url. -/
theorem connectPeer_noop (selfUrl url : String) (s : ServerState)
    (list : List String)
    (hfresh : ∀ p ∈ s.peerSockets, p.1 < s.nextSock)
    (hlive : s.peerSockets.any (fun p => p.2 = url) = true)
    (hone : countConnsTo s url = 1) :
    connectPeer selfUrl s selfUrl = (s, none)
    ∧ connectPeer selfUrl s url = (s, none)
    ∧ (connectPeer selfUrl (connectPeer selfUrl s url).1 url).1 = s
    ∧ countConnsTo (connectPeer selfUrl (connectPeer selfUrl s url).1 url).1 url = 1
    ∧ countConnsTo (handlePeersList selfUrl s list) selfUrl = countConnsTo s selfUrl := by
  have h1 : connectPeer selfUrl s selfUrl = (s, none) := by
    unfold connectPeer; simp
  have h2 : connectPeer selfUrl s url = (s, none) := by
    unfold connectPeer
    split_ifs with ha
    · rfl
    · rfl
  refine ⟨h1, h2, by simp [h2], by simp [h2, hone], ?_⟩
  exact handlePeersList_countSelf selfUrl list s hfresh

theorem connectPeer_noop_witness :
    connectPeer "ws://me" sampleState "ws://me" = (sampleState, none)
    ∧ connectPeer "ws://me" sampleState "ws://a" = (sampleState, none)
    ∧ (connectPeer "ws://me" (connectPeer "ws://me" sampleState "ws://a").1 "ws://a").1
        = sampleState
    ∧ countConnsTo (handlePeersList "ws://me" sampleState ["ws://me", "ws://b"]) "ws://me"
        = countConnsTo sampleState "ws://me" := by
  have h := connectPeer_noop "ws://me" "ws://a" sampleState ["ws://me", "ws://b"]
    (by decide) (by decide) (by decide)
  exact ⟨h.1, h.2.1, h.2.2.1, h.2.2.2.2⟩

theorem mapSet_hasKey_mono {α β : Type} [DecidableEq α] {k : α} (k' : α) (v : β) :
    ∀ {m : List (α × β)}, mapHasKey k m = true → mapHasKey k (mapSet k' v m) = true := by
  intro m
  induction m with
  | nil => intro h; simp [mapHasKey] at h
  | cons p rest ih =>
    intro h
    simp only [mapHasKey, List.any_cons, Bool.or_eq_true, decide_eq_true_eq] at h
    unfold mapSet
    split_ifs with hp
    · rcases h with h | h
      · simp [mapHasKey, ← hp, h]
      · simp only [mapHasKey, List.any_cons, Bool.or_eq_true]
        exact Or.inr h
    · rcases h with h | h
      · simp [mapHasKey, h]
      · have := ih h
        simp only [mapHasKey, List.any_cons, Bool.or_eq_true] at this ⊢
        exact Or.inr this

theorem mapSet_hasKey_self {α β : Type} [DecidableEq α] (k : α) (v : β) :
    ∀ m : List (α × β), mapHasKey k (mapSet k v m) = true := by
  intro m
  induction m with
  | nil => simp [mapSet, mapHasKey]
  | cons p rest ih =>
    unfold mapSet
    split_ifs with hp
    · simp [mapHasKey]
    · simp only [mapHasKey, List.any_cons, Bool.or_eq_true] at ih ⊢
      exact Or.inr ih

theorem mapLookup_mapSet_self {α β : Type} [DecidableEq α] (k : α) (v : β) :
    ∀ m : List (α × β), mapLookup k (mapSet k v m) = some v := by
  intro m
  induction m with
  | nil => simp [mapSet, mapLookup]
  | cons p rest ih =>
    unfold mapSet
    split_ifs with hp
    · simp [mapLookup]
    · simp [mapLookup, hp, ih]

theorem contains_keys (u : String) :
    ∀ m : List (String × Nat),
      ((m.map (fun p => p.1)).contains u = true) ↔ mapHasKey u m = true := by
  intro m
  induction m with
  | nil => simp [mapHasKey]
  | cons p rest ih =>
    rw [List.map_cons, List.contains_cons]
    simp only [Bool.or_eq_true, beq_iff_eq, mapHasKey, List.any_cons,
      decide_eq_true_eq] at ih ⊢
    constructor
    · rintro (h | h)
      · exact Or.inl h.symm
      · exact Or.inr (ih.mp h)
    · rintro (h | h)
      · exact Or.inl h.symm
      · exact Or.inr (ih.mpr h)

theorem peersList_contains (s : ServerState) (u : String) :
    ((peersList s).contains u = true) ↔ mapHasKey u s.peers = true :=
  contains_keys u s.peers

theorem cmdHandle_peers (H : BlockFields → String) (now : Nat) (uuid : String)
    (s : ServerState) (m : WireMsg) : (cmdHandle H now uuid s m).1.peers = s.peers := by
  cases m <;> try rfl
  simp only [cmdHandle, handleClientCommand]
  split_ifs <;> rfl

theorem wssHandle_peers_mono (H : BlockFields → String) (now : Nat)
    (s : ServerState) (ws : Nat) (m : WireMsg) {u : String}
    (h : mapHasKey u s.peers = true) :
    mapHasKey u (wssHandle H now s ws m).1.peers = true := by
  cases m with
  | helloMsg role url =>
    simp only [wssHandle]
    split_ifs with h1 h2
    · exact h
    · exact mapSet_hasKey_mono _ _ h
    · exact h
  | blockMsg b =>
    simp only [wssHandle]
    split_ifs <;> exact h
  | chainMsg c =>
    simp only [wssHandle, replaceChain]
    split_ifs <;> exact h
  | requestChain => exact h
  | peersMsg l => exact h
  | cmdMsg c => exact h
  | other t => exact h

theorem serverMsgHandler_peers_mono (H : BlockFields → String) (now : Nat)
    (uuid : String) (s : ServerState) (ws : Nat) (raw : RawMsg) {u : String}
    (h : mapHasKey u s.peers = true) :
    mapHasKey u (serverMsgHandler H now uuid s ws raw).1.peers = true := by
  cases raw with
  | malformed => exact h
  | parsed m =>
    have e : (serverMsgHandler H now uuid s ws (.parsed m)).1.peers
        = (wssHandle H now s ws m).1.peers := by
      show (cmdHandle H now uuid (wssHandle H now s ws m).1 m).1.peers = _
      exact cmdHandle_peers H now uuid _ m
    rw [e]
    exact wssHandle_peers_mono H now s ws m h

theorem foldl_connect_peers (selfUrl : String) (g : ServerState → String → Bool) :
    ∀ (list : List String) (s : ServerState),
      (list.foldl (fun st u => if g st u then st else (connectPeer selfUrl st u).1) s).peers
        = s.peers := by
  intro list
  induction list with
  | nil => intro s; rfl
  | cons u rest ih =>
    intro s
    simp only [List.foldl_cons]
    by_cases hg : g s u = true
    · rw [if_pos hg]; exact ih s
    · rw [if_neg hg, ih _, connectPeer_peers]

theorem handlePeersList_peers (selfUrl : String) (s : ServerState)
    (list : List String) : (handlePeersList selfUrl s list).peers = s.peers :=
  foldl_connect_peers selfUrl (fun st u => mapHasKey u st.peers) list s

theorem gossipTick_peers (selfUrl : String) (s : ServerState) :
    (gossipTick selfUrl s).1.peers = s.peers :=
  foldl_connect_peers selfUrl (fun st u => st.peerSockets.any (fun p => p.2 = u))
    (peersList s) s

theorem outboundHandle_peers_mono (H : BlockFields → String) (selfUrl : String)
    (s : ServerState) (pw : Nat) (raw : RawMsg) {u : String}
    (h : mapHasKey u s.peers = true) :
    mapHasKey u (outboundHandle H selfUrl s pw raw).1.peers = true := by
  cases raw with
  | malformed => exact h
  | parsed m =>
    cases m with
    | blockMsg b =>
      simp only [outboundHandle]
      split_ifs <;> exact h
    | chainMsg c =>
      simp only [outboundHandle, replaceChain]
      split_ifs <;> exact h
    | peersMsg l =>
      show mapHasKey u (handlePeersList selfUrl s l).peers = true
      rw [handlePeersList_peers]
      exact h
    | requestChain => exact h
    | helloMsg role url => exact h
    | cmdMsg c => exact h
    | other t => exact h

theorem onClose_peers (s : ServerState) (ws : Nat) :
    (onClose s ws).peers = s.peers := by
  unfold onClose
  cases mapLookup ws s.peerSockets with
  | none => rfl
  | some v => by_cases hv : v = "" <;> simp [hv]

theorem postMessage_peers (H : BlockFields → String) (now : Nat) (uuid : String)
    (s : ServerState) (author content : Option String) :
    (postMessage H now uuid s author content).1.peers = s.peers := by
  unfold postMessage
  split_ifs <;> rfl

theorem postNote_peers (H : BlockFields → String) (now : Nat) (uuid : String)
    (s : ServerState) (id title body : Option String) :
    (postNote H now uuid s id title body).1.peers = s.peers := by
  unfold postNote
  split_ifs <;> rfl

theorem applyEvent_peers_mono (H : BlockFields → String) (selfUrl : String)
    {u : String} (s : ServerState) (ev : ServerEvent)
    (h : mapHasKey u s.peers = true) :
    mapHasKey u (applyEvent H selfUrl s ev).peers = true := by
  cases ev with
  | inboundMsg now uuid ws raw => exact serverMsgHandler_peers_mono H now uuid s ws raw h
  | inboundClose ws =>
    show mapHasKey u (onClose s ws).peers = true
    rw [onClose_peers]; exact h
  | outboundMsg pw raw => exact outboundHandle_peers_mono H selfUrl s pw raw h
  | outboundOpen now pw url =>
    show mapHasKey u (mapSet url now s.peers) = true
    exact mapSet_hasKey_mono _ _ h
  | connectCall url =>
    show mapHasKey u (connectPeer selfUrl s url).1.peers = true
    rw [connectPeer_peers]; exact h
  | tick =>
    show mapHasKey u (gossipTick selfUrl s).1.peers = true
    rw [gossipTick_peers]; exact h
  | httpMessage now uuid author content =>
    show mapHasKey u (postMessage H now uuid s author content).1.peers = true
    rw [postMessage_peers]; exact h
  | httpNote now uuid id title body =>
    show mapHasKey u (postNote H now uuid s id title body).1.peers = true
    rw [postNote_peers]; exact h

theorem foldl_events_peers_mono (H : BlockFields → String) (selfUrl : String)
    {u : String} : ∀ (evs : List ServerEvent) (s : ServerState),
      mapHasKey u s.peers = true →
      mapHasKey u ((evs.foldl (applyEvent H selfUrl) s)).peers = true := by
  intro evs
  induction evs with
  | nil => intro s h; exact h
  | cons ev rest ih =>
    intro s h
    simp only [List.foldl_cons]
    exact ih _ (applyEvent_peers_mono H selfUrl s ev h)

/-- C10: a first `hello` with role `peer` and an absent (or empty) `url`
registers the connection in `peerSockets` under the empty-string url and
upserts a peer-directory record keyed by `""`; since no event ever removes a
directory entry, after any further sequence of server events the empty
string is still in the url list, and every envelope `broadcastPeers` sends
is exactly that url list. -/
theorem hello_no_url_empty_key (H : BlockFields → String) (selfUrl : String)
    (now : Nat) (uuid : String) (s : ServerState) (ws : Nat)
    (url? : Option String) (evs : List ServerEvent)
    (hurl : url? = none ∨ url? = some "") :
    mapLookup ws (afterHello H now uuid s ws url?).peerSockets = some ""
    ∧ mapHasKey "" (afterHello H now uuid s ws url?).peers = true
    ∧ (peersList (evs.foldl (applyEvent H selfUrl)
        (afterHello H now uuid s ws url?))).contains "" = true
    ∧ ∀ t m, Eff.send t m ∈ broadcastPeers (evs.foldl (applyEvent H selfUrl)
          (afterHello H now uuid s ws url?)) →
        m = .peersMsg (peersList (evs.foldl (applyEvent H selfUrl)
          (afterHello H now uuid s ws url?))) := by
  have hu : url?.getD "" = "" := by rcases hurl with h | h <;> simp [h]
  have hA : afterHello H now uuid s ws url? =
      { s with peerSockets := mapSet ws "" s.peerSockets,
               peers := mapSet "" now s.peers } := by
    show (wssHandle H now s ws (.helloMsg (some "peer") url?)).1 = _
    simp only [wssHandle, hu]
    rfl
  refine ⟨?_, ?_, ?_, ?_⟩
  · rw [hA]
    exact mapLookup_mapSet_self ws "" s.peerSockets
  · rw [hA]
    exact mapSet_hasKey_self "" now s.peers
  · refine (peersList_contains _ "").mpr (foldl_events_peers_mono H selfUrl evs _ ?_)
    rw [hA]
    exact mapSet_hasKey_self "" now s.peers
  · intro t m hm
    simp only [broadcastPeers, broadcast, List.mem_map] at hm
    obtain ⟨x, _, he⟩ := hm
    injection he with h1 h2
    exact h2.symm

theorem hello_no_url_empty_key_witness :
    mapLookup 9 (afterHello hIdx 5 "u" sampleState 9 none).peerSockets = some ""
    ∧ mapHasKey "" (afterHello hIdx 5 "u" sampleState 9 none).peers = true
    ∧ (peersList ([ServerEvent.tick].foldl (applyEvent hIdx "ws://me")
        (afterHello hIdx 5 "u" sampleState 9 none))).contains "" = true := by
  have h := hello_no_url_empty_key hIdx "ws://me" 5 "u" sampleState 9 none
    [ServerEvent.tick] (Or.inl rfl)
  exact ⟨h.1, h.2.1, h.2.2.1⟩

end BlockchainChat
